import Mathlib

/-!
Shallow embedding of the job-aggregation pipeline in `src/streamlit_app.py`
(fetch → normalize → dedupe → filter → sort), together with theorems checking
the natural-language specification against it.

Conventions of the embedding:
* Python strings are Lean `String`s; most computation is done on the
  underlying `List Char` so that everything reduces by `rfl`/`decide`.
* Python's `None` for nullable string-typed values in the canonical job
  record is modelled by the empty string where every consumer of the field
  only tests truthiness (Python treats `None` and `""` identically there).
  Where the `None`/`""` distinction is observable (the raw dictionaries
  built by the per-source normalizers), a full Python-value model `PyVal`
  is used instead.
* Library calls (`datetime.fromisoformat`, `datetime.utcfromtimestamp`,
  `requests.get`) are modelled as explicit function parameters / a small
  transport-outcome type; everything written in the repository itself is
  translated line by line.
-/

/-- ASCII whitespace, the characters matched by Python's regex class used in
`normalize_text` (the model restricts Python whitespace to ASCII). -/
def isPySpace (c : Char) : Bool :=
  c = ' ' || c = '\t' || c = '\n' || c = '\r' || c = '\x0b' || c = '\x0c'

/-- Replace every maximal run of whitespace by a single space: the effect of
the regex substitution in `normalize_text` (line 48 of the source). -/
def collapseWs : List Char → List Char
  | [] => []
  | [c] => if isPySpace c then [' '] else [c]
  | c :: c' :: cs =>
    if isPySpace c && isPySpace c' then collapseWs (c' :: cs)
    else (if isPySpace c then ' ' else c) :: collapseWs (c' :: cs)

/-- Strip characters satisfying `p` from both ends of a list: the model of
Python `str.strip` (for whitespace) and `str.strip("/")`. -/
def stripBoth (p : Char → Bool) (l : List Char) : List Char :=
  (l.rdropWhile p).dropWhile p

/-- Model of the helper `normalize_text` (source line 47-48):
collapse whitespace runs, strip both ends, lowercase. -/
def normalize_text (s : String) : String :=
  ⟨(stripBoth isPySpace (collapseWs s.data)).map Char.toLower⟩

/-- Python truthiness of `L.strip()` for a string `L`: true when `L` has a
non-whitespace character. Used to model the `if L.strip()` / `if k.strip()`
filters in the matchers. -/
def stripTruthy (s : String) : Bool :=
  !(stripBoth isPySpace s.data).isEmpty

/-- `pat` occurs at the head of `s` (model of comparing an initial run). -/
def leadsWith : List Char → List Char → Bool
  | [], _ => true
  | _ :: _, [] => false
  | p :: ps, c :: cs => p == c && leadsWith ps cs

/-- Substring containment on char lists (model of Python's `pat in hay`). -/
def containsSub (pat : List Char) : List Char → Bool
  | [] => pat.isEmpty
  | c :: cs => leadsWith pat (c :: cs) || containsSub pat cs

/-- Python's `pat in hay` for strings. -/
def strIn (pat hay : String) : Bool :=
  containsSub pat.data hay.data

/-- Fuel-driven worker for `pyReplace`; the fuel starts at the length of the
scanned list and, since a match consumes at least one character of a
non-empty pattern, never runs out. -/
def pyReplaceGo (pat rep : List Char) : Nat → List Char → List Char
  | 0, l => l
  | _ + 1, [] => []
  | fuel + 1, c :: cs =>
    if leadsWith pat (c :: cs) then rep ++ pyReplaceGo pat rep fuel ((c :: cs).drop pat.length)
    else c :: pyReplaceGo pat rep fuel cs

/-- Model of Python `s.replace(pat, rep)`: replace every occurrence,
left to right, non-overlapping. -/
def pyReplace (s pat rep : String) : String :=
  if pat.data.isEmpty then s
  else ⟨pyReplaceGo pat.data rep.data s.data.length s.data⟩

-- Basic sanity checks of the string helpers.
example : normalize_text "  Senior   QA  Engineer " = "senior qa engineer" := by decide
example : strIn "qa" "senior qa engineer" = true := by decide
example : strIn "remote" "remote - us" = true := by decide
example : pyReplace "2024-01-02T03:04:05Z" "Z" "" = "2024-01-02T03:04:05" := by decide
example : pyReplace "2024-01-02T03:04:05+00:00" "+00:00" "" = "2024-01-02T03:04:05" := by decide
example : stripBoth (fun c => c == '/') "/a//b/".data = "a//b".data := by decide

/-- The canonical job record built by the fetchers (source lines 106-117,
134-145, 171-182), restricted to string-typed field values. Nullable
fields (`title`, `company`, `url`, `posted_at`) use the empty string for
Python `None`; every consumer of those fields in the pipeline guards them
with `j.get(..., "")` truthiness or feeds them through `normalize_text`,
which maps `None` and `""` to the same result. The raw, possibly-`None`
values are modelled separately by `NormJob` below. -/
structure Job where
  title : String
  company : String
  location : String
  team : String
  commitment : String
  url : String
  description : String
  posted_at : String
  source : String
  tags : List String
deriving DecidableEq, Repr

/-- The deduplication key of `dedupe_jobs` (source line 63): normalized
title, normalized company, and the raw, unmodified url string. -/
def dedupKey (j : Job) : String × String × String :=
  (normalize_text j.title, normalize_text j.company, j.url)

/-- Worker for `dedupe_jobs`, carrying the `seen` set (modelled as a list
of keys). -/
def dedupeAux (seen : List (String × String × String)) : List Job → List Job
  | [] => []
  | j :: rest =>
    if dedupKey j ∈ seen then dedupeAux seen rest
    else j :: dedupeAux (dedupKey j :: seen) rest

/-- Model of `dedupe_jobs` (source lines 59-67): keep the first job for each
key, preserving order. -/
def dedupe_jobs (jobs : List Job) : List Job :=
  dedupeAux [] jobs

/-- Model of `keyword_match` (source lines 69-77): some non-blank keyword,
normalized, occurs in the normalized concatenation of title, company,
location, description and space-joined tags. -/
def keyword_match (job : Job) (keywords : List String) : Bool :=
  let hay := normalize_text (String.intercalate " "
    [job.title, job.company, job.location, job.description, String.intercalate " " job.tags])
  keywords.any fun k => stripTruthy k && strIn (normalize_text k) hay

/-- Model of `location_match` (source lines 79-83). -/
def location_match (job : Job) (locations : List String) (remote_ok : Bool) : Bool :=
  let loc := normalize_text job.location
  if remote_ok && (strIn "remote" loc || loc == "") then true
  else locations.any fun L => stripTruthy L && strIn (normalize_text L) loc

/-- The `.replace("Z","").replace("+00:00","")` preprocessing of
`days_ago` (source line 88). -/
def stripDateMarkers (s : String) : String :=
  pyReplace (pyReplace s "Z" "") "+00:00" ""

/-- Model of `days_ago` (source lines 85-91). `parseIso` models
`datetime.fromisoformat`, returning the parsed instant as seconds since the
epoch, `none` when parsing raises (the exception is caught and `days_ago`
returns `None`). `now` models `datetime.utcnow()` in the same unit.
`timedelta.days` rounds toward negative infinity, i.e. `Int.fdiv`. -/
def days_ago (parseIso : String → Option Int) (now : Int) (date_str : String) : Option Int :=
  (parseIso (stripDateMarkers date_str)).map fun t => Int.fdiv (now - t) 86400

/-- The recency test inlined in `run_scan` (source lines 312-315): a job is
dropped exactly when `posted_at` is truthy, `days_ago` returns a value, and
that value exceeds the window. -/
def recencyKeep (parseIso : String → Option Int) (now window : Int) (j : Job) : Bool :=
  if j.posted_at ≠ "" then
    match days_ago parseIso now j.posted_at with
    | some age => decide (age ≤ window)
    | none => true
  else true

/-- The sort key of `sort_recent` (source lines 357-359): `days_ago` of a
truthy `posted_at` (which may be Python `None`, modelled `none`), `9999`
otherwise. -/
def sortRecentKey (parseIso : String → Option Int) (now : Int) (j : Job) : Option Int :=
  if j.posted_at ≠ "" then days_ago parseIso now j.posted_at else some 9999

/-- Stable insertion of a job into a list sorted by an integer key
(Python's `sorted` is stable: equal keys keep their input order). -/
def insertByKey (key : Job → Int) (j : Job) : List Job → List Job
  | [] => [j]
  | x :: xs => if key j < key x then j :: x :: xs else x :: insertByKey key j xs

/-- Stable sort by an integer key. -/
def sortByKey (key : Job → Int) : List Job → List Job
  | [] => []
  | j :: rest => insertByKey key j (sortByKey key rest)

/-- Model of Python's `sorted(jobs, key=k)` when `k` returns `Optional[int]`:
with at most one element no comparison happens; otherwise every element's
key takes part in at least one `<` comparison, and any comparison involving
`None` raises `TypeError`, so the sort succeeds exactly when every key is a
proper `int`. -/
def pySortedOptKey (key : Job → Option Int) (l : List Job) : Except Unit (List Job) :=
  if l.length ≤ 1 then Except.ok l
  else if l.all fun j => (key j).isSome then
    Except.ok (sortByKey (fun j => (key j).getD 0) l)
  else Except.error ()

/-- Model of the sort-by-recency branch of the UI (source lines 356-360). -/
def sort_recent (parseIso : String → Option Int) (now : Int) (jobs : List Job) :
    Except Unit (List Job) :=
  pySortedOptKey (sortRecentKey parseIso now) jobs

/-- Python values as delivered by JSON decoding, for the raw records the
normalizers consume. -/
inductive PyVal where
  | pnone
  | pstr (s : String)
  | pint (n : Int)
  | pbool (b : Bool)
  | plist (xs : List PyVal)
  | pdict (fs : List (String × PyVal))

/-- Python exceptions relevant to the normalizers and fetchers. -/
inductive PyErr where
  | typeError
  | attrError
  | indexError
  | jsonError
deriving DecidableEq, Repr

/-- `d.get(k)` on a Python dict: the stored value, or `None` when the key is
absent. -/
def pyGet (fs : List (String × PyVal)) (k : String) : PyVal :=
  match fs.find? fun p => p.1 == k with
  | some p => p.2
  | none => PyVal.pnone

/-- `d.get(k, default)` on a Python dict. -/
def pyGetD (fs : List (String × PyVal)) (k : String) (d : PyVal) : PyVal :=
  match fs.find? fun p => p.1 == k with
  | some p => p.2
  | none => d

/-- Python truthiness. -/
def pyTruthy : PyVal → Bool
  | PyVal.pnone => false
  | PyVal.pstr s => !s.data.isEmpty
  | PyVal.pint n => n != 0
  | PyVal.pbool b => b
  | PyVal.plist xs => !xs.isEmpty
  | PyVal.pdict fs => !fs.isEmpty

/-- Python's short-circuit `a or b` on already-evaluated values. -/
def pyOr (a b : PyVal) : PyVal :=
  if pyTruthy a then a else b

/-- The raw dictionary a normalizer builds for one posting, with the exact
Python values (so `None` and `""` stay distinct): the dict literals at
source lines 106-117, 134-145 and 171-182. -/
structure NormJob where
  title : PyVal
  company : PyVal
  location : PyVal
  team : PyVal
  commitment : PyVal
  url : PyVal
  description : PyVal
  posted_at : PyVal
  source : String
  tags : PyVal

/-- `v[:1200]` on the value Python computed for a description: slicing works
on strings and lists, raises `TypeError` otherwise. -/
def pySlice1200 : PyVal → Except PyErr PyVal
  | PyVal.pstr s => Except.ok (PyVal.pstr ⟨s.data.take 1200⟩)
  | PyVal.plist xs => Except.ok (PyVal.plist (xs.take 1200))
  | _ => Except.error PyErr.typeError

/-- `(v).get(k, default)` where `v` should be a dict (raises
`AttributeError` otherwise). -/
def pyDictGetD (v : PyVal) (k : String) (d : PyVal) : Except PyErr PyVal :=
  match v with
  | PyVal.pdict fs => Except.ok (pyGetD fs k d)
  | _ => Except.error PyErr.attrError

/-- `v[0].get(k)` for the serpapi link extraction: `[0]` raises `IndexError`
on an empty list, and `.get` raises `AttributeError` on a non-dict. -/
def pyFirstGet (v : PyVal) (k : String) : Except PyErr PyVal :=
  match v with
  | PyVal.plist (x :: _) =>
    match x with
    | PyVal.pdict fs => Except.ok (pyGet fs k)
    | _ => Except.error PyErr.attrError
  | PyVal.plist [] => Except.error PyErr.indexError
  | PyVal.pstr s => if s.data.isEmpty then Except.error PyErr.indexError
                    else Except.error PyErr.attrError
  | _ => Except.error PyErr.typeError

/-- The Lever record-to-dict mapping, source lines 106-117. `isoMs` models
`datetime.utcfromtimestamp(ms/1000).isoformat()` applied to a raw
millisecond count (a truthy `True` behaves as the integer 1). A truthy
non-numeric `createdAt` makes the division raise `TypeError`. -/
def leverNormalizeItem (isoMs : Int → String) (slug : String)
    (it : List (String × PyVal)) : Except PyErr NormJob := do
  let cats := pyOr (pyGet it "categories") (PyVal.pdict [])
  let location ← pyDictGetD cats "location" (PyVal.pstr "")
  let team ← pyDictGetD cats "team" (PyVal.pstr "")
  let commitment ← pyDictGetD cats "commitment" (PyVal.pstr "")
  let url := pyOr (pyGet it "hostedUrl") (pyGet it "applyUrl")
  let description ← pySlice1200 (pyOr (pyGet it "descriptionPlain") (PyVal.pstr ""))
  let ca := pyGet it "createdAt"
  let posted_at ←
    if pyTruthy ca then
      match ca with
      | PyVal.pint n => Except.ok (PyVal.pstr (isoMs n))
      | PyVal.pbool _ => Except.ok (PyVal.pstr (isoMs 1))
      | _ => Except.error PyErr.typeError
    else Except.ok ca
  Except.ok { title := pyGet it "text", company := PyVal.pstr slug, location, team,
              commitment, url, description, posted_at, source := "Lever",
              tags := pyOr (pyGet it "tags") (PyVal.plist []) }

/-- The Greenhouse record-to-dict mapping, source lines 134-145. -/
def greenhouseNormalizeItem (slug : String) (it : List (String × PyVal)) :
    Except PyErr NormJob := do
  let location ← pyDictGetD (pyOr (pyGet it "location") (PyVal.pdict [])) "name" (PyVal.pstr "")
  let team ←
    if pyTruthy (pyGet it "departments") then
      match pyOr (pyGet it "departments") (PyVal.plist [PyVal.pdict []]) with
      | PyVal.plist (x :: _) =>
        match x with
        | PyVal.pdict fs => Except.ok (pyGetD fs "name" (PyVal.pstr ""))
        | _ => Except.error PyErr.attrError
      | PyVal.plist [] => Except.error PyErr.indexError
      | _ => Except.error PyErr.typeError
    else Except.ok (PyVal.pstr "")
  Except.ok { title := pyGet it "title", company := PyVal.pstr slug, location, team,
              commitment := pyGetD it "commitment" (PyVal.pstr ""),
              url := pyGet it "absolute_url", description := PyVal.pstr "",
              posted_at := pyOr (pyGet it "updated_at") (pyGet it "created_at"),
              source := "Greenhouse", tags := PyVal.plist [] }

/-- The SerpAPI record-to-dict mapping, source lines 171-182. The `or`
between the two link lookups short-circuits: the `apply_options` side is
only evaluated when the `related_links` side is falsy. -/
def serpNormalizeItem (it : List (String × PyVal)) : Except PyErr NormJob := do
  let commitment ← pyDictGetD (pyGetD it "detected_extensions" (PyVal.pdict []))
      "schedule_type" (PyVal.pstr "")
  let l ← pyFirstGet (pyGetD it "related_links" (PyVal.plist [PyVal.pdict []])) "link"
  let url ← if pyTruthy l then Except.ok l
            else pyFirstGet (pyGetD it "apply_options" (PyVal.plist [PyVal.pdict []])) "link"
  let description ← pySlice1200 (pyOr (pyGetD it "description" (PyVal.pstr "")) (PyVal.pstr ""))
  let posted_at ← pyDictGetD (pyGetD it "detected_extensions" (PyVal.pdict []))
      "posted_at" (PyVal.pstr "")
  Except.ok { title := pyGetD it "title" (PyVal.pstr ""),
              company := pyGetD it "company_name" (PyVal.pstr ""),
              location := pyGetD it "location" (PyVal.pstr ""),
              team := PyVal.pstr "", commitment, url, description, posted_at,
              source := "SerpAPI", tags := PyVal.plist [] }

/-- Outcome of one HTTP request: an exception (timeout, connection error),
or a response with a status code and a body; `none` as the body means the
body is not valid JSON, so `r.json()` raises. -/
inductive NetResult where
  | exn
  | resp (status : Nat) (body : Option PyVal)

/-- Model of `safe_get` (source lines 50-57): `some body` exactly when the
request succeeded with status 200; exceptions and other statuses give
`None`. -/
def safe_get : NetResult → Option (Option PyVal)
  | NetResult.exn => none
  | NetResult.resp status body => if status = 200 then some body else none

/-- The `for it in data` loop of the board fetchers: iterating a JSON array
normalizes each element (`.get` on a non-dict element raises); iterating an
empty dict or empty string yields nothing; any other shape raises. -/
def iterNormalize (f : List (String × PyVal) → Except PyErr NormJob) :
    PyVal → Except PyErr (List NormJob)
  | PyVal.plist xs => xs.mapM fun it =>
      match it with
      | PyVal.pdict fs => f fs
      | _ => Except.error PyErr.attrError
  | PyVal.pdict fs => if fs.isEmpty then Except.ok [] else Except.error PyErr.attrError
  | PyVal.pstr s => if s.data.isEmpty then Except.ok [] else Except.error PyErr.attrError
  | _ => Except.error PyErr.typeError

/-- Model of `fetch_lever` (source lines 98-118). `r.json()` on a malformed
body raises, and nothing in this fetcher catches it. -/
def fetch_lever (isoMs : Int → String) (net : NetResult) (company_slug : String) :
    Except PyErr (List NormJob) :=
  match safe_get net with
  | none => Except.ok []
  | some none => Except.error PyErr.jsonError
  | some (some data) => iterNormalize (leverNormalizeItem isoMs company_slug) data

/-- Model of `fetch_greenhouse` (source lines 126-146). -/
def fetch_greenhouse (net : NetResult) (board_slug : String) :
    Except PyErr (List NormJob) :=
  match safe_get net with
  | none => Except.ok []
  | some none => Except.error PyErr.jsonError
  | some (some data) =>
    match data with
    | PyVal.pdict fs => iterNormalize (greenhouseNormalizeItem board_slug)
        (pyGetD fs "jobs" (PyVal.plist []))
    | _ => Except.error PyErr.attrError

/-- Model of `fetch_serpapi_jobs` (source lines 153-185): an empty api key
returns immediately with no request; otherwise one request is attempted and
the whole body is wrapped in `try/except`, so any error (including a raise
inside the normalization loop) degrades to an empty list. The second
component counts the network requests attempted. -/
def fetch_serpapi_jobs (net : NetResult) (query location api_key : String) :
    List NormJob × Nat :=
  if api_key = "" then ([], 0)
  else
    let attempt : Except PyErr (List NormJob) :=
      match net with
      | NetResult.exn => Except.error PyErr.typeError
      | NetResult.resp status body =>
        if status ≠ 200 then Except.ok []
        else
          match body with
          | none => Except.error PyErr.jsonError
          | some data =>
            match data with
            | PyVal.pdict fs => iterNormalize serpNormalizeItem
                (pyGetD fs "jobs_results" (PyVal.plist []))
            | _ => Except.error PyErr.attrError
    (match attempt with
     | Except.ok js => js
     | Except.error _ => [], 1)

/-- Split a char list at the first `':'`: `some (before, after)` when a
colon occurs. -/
def splitFirstColon : List Char → Option (List Char × List Char)
  | [] => none
  | c :: cs =>
    if c = ':' then some ([], cs)
    else (splitFirstColon cs).map fun p => (c :: p.1, p.2)

/-- Model of Python `urlparse(url)` restricted to what `parse_board_url`
reads, returning `(netloc, path)`. For a scheme-qualified URL
`scheme://netloc/path?query#fragment` the netloc is everything after `//`
up to the first `/`, `?` or `#`, and the path runs from there to the first
`?` or `#`. A URL whose scheme part is not followed by `//` has an empty
netloc. -/
def urlparseNetlocPath (url : String) : String × String :=
  match splitFirstColon url.data with
  | some (_, '/' :: '/' :: rest) =>
    let netloc := rest.takeWhile fun c => c ≠ '/' && c ≠ '?' && c ≠ '#'
    let path := (rest.drop netloc.length).takeWhile fun c => c ≠ '?' && c ≠ '#'
    (⟨netloc⟩, ⟨path⟩)
  | some (_, rest) => ("", ⟨rest.takeWhile fun c => c ≠ '?' && c ≠ '#'⟩)
  | none => ("", ⟨url.data.takeWhile fun c => c ≠ '?' && c ≠ '#'⟩)

/-- Split a char list on a separator character, keeping empty pieces:
Python `s.split("/")`. The result is never empty. -/
def splitChar (sep : Char) : List Char → List (List Char)
  | [] => [[]]
  | c :: cs =>
    match splitChar sep cs with
    | [] => [[c]]
    | h :: t => if c = sep then [] :: h :: t else (c :: h) :: t

/-- Python `s.lower()` (charwise, as for `normalize_text`). -/
def lowerStr (s : String) : String :=
  ⟨s.data.map Char.toLower⟩

/-- Model of `parse_board_url` (source lines 187-200): lowercase the netloc,
strip `/` from both ends of the path and split on `/`; a host containing
`lever.co` maps to Lever, else one containing `greenhouse.io` to
Greenhouse, else Unknown with an empty slug. (`split` never returns an
empty list, so the Python `and path` guard is always true.) -/
def parse_board_url (url : String) : String × String :=
  let p := urlparseNetlocPath url
  let host := lowerStr p.1
  let path := splitChar '/' (stripBoth (fun c => c == '/') p.2.data)
  if strIn "lever.co" host && !path.isEmpty then ("Lever", ⟨path.headD []⟩)
  else if strIn "greenhouse.io" host && !path.isEmpty then ("Greenhouse", ⟨path.headD []⟩)
  else ("Unknown", "")

-- Sanity checks against the spec's end-to-end scenario 4.
example : parse_board_url "https://boards.greenhouse.io/acme" = ("Greenhouse", "acme") := by decide
example : parse_board_url "https://example.com/foo" = ("Unknown", "") := by decide
example : parse_board_url "https://jobs.lever.co/wayve" = ("Lever", "wayve") := by decide

/-- The per-source diagnostics dict initialized at source line 279. -/
structure Diag where
  lever : Nat
  greenhouse : Nat
  serpapi : Nat
  unknown : Nat
deriving DecidableEq, Repr

/-- Everything `run_scan` reads apart from the preset: the configured
boards, filters and credentials (the sidebar state), plus the fetchers and
time/parsing oracles the pipeline calls. The fetchers are parameters so
that one run's fetch results are fixed values, as in one synchronous
execution of the Python function. -/
structure ScanEnv where
  fetchL : String → List Job
  fetchG : String → List Job
  fetchS : String → String → String → List Job
  board_urls : List String
  use_serpapi : Bool
  serpapi_key : String
  serpapi_location : String
  tech_keywords : List String
  locations : List String
  remote_ok : Bool
  posted_within_days : Int
  parseIso : String → Option Int
  now : Int

/-- One iteration of the board loop of `run_scan` (source lines 282-293):
dispatch on the parsed source, extend the accumulated jobs, bump the
matching diagnostics counter. -/
def boardStep (env : ScanEnv) (acc : List Job × Diag) (url : String) : List Job × Diag :=
  let pr := parse_board_url url
  if pr.1 = "Lever" then
    (acc.1 ++ env.fetchL pr.2, { acc.2 with lever := acc.2.lever + (env.fetchL pr.2).length })
  else if pr.1 = "Greenhouse" then
    (acc.1 ++ env.fetchG pr.2,
     { acc.2 with greenhouse := acc.2.greenhouse + (env.fetchG pr.2).length })
  else (acc.1, { acc.2 with unknown := acc.2.unknown + 1 })

/-- Model of `run_scan` (source lines 277-319): fetch every configured
board, optionally the aggregator, then dedupe, filter by the three
predicates and return `(filtered, diagnostics, len(all_jobs))` — where
`all_jobs` has been rebound to the deduplicated list before `len` is
taken. -/
def run_scan (env : ScanEnv) (preset : List String) : List Job × Diag × Nat :=
  let fetched := env.board_urls.foldl (boardStep env) ([], ⟨0, 0, 0, 0⟩)
  let withSerp :=
    if env.use_serpapi && env.serpapi_key ≠ "" then
      let q := String.intercalate " OR " (preset.map fun k => "\"" ++ k ++ "\"")
      let sj := env.fetchS q env.serpapi_location env.serpapi_key
      (fetched.1 ++ sj, { fetched.2 with serpapi := fetched.2.serpapi + sj.length })
    else fetched
  let all_jobs := dedupe_jobs withSerp.1
  let combined := preset ++ env.tech_keywords
  let filtered := all_jobs.filter fun j =>
    keyword_match j combined && location_match j env.locations env.remote_ok &&
      recencyKeep env.parseIso env.now env.posted_within_days j
  (filtered, withSerp.2, all_jobs.length)

/-- A trivial concrete stand-in for `datetime.utcfromtimestamp(...).isoformat()`
used where the timestamp formatting itself is irrelevant. -/
def iso0 : Int → String := fun _ => ""

/-- A concrete stand-in for `datetime.fromisoformat`: accepts exactly one
date string, mapping it to the epoch instant 0. -/
def parseIso0 : String → Option Int := fun s =>
  if s = "2025-01-01T00:00:00" then some 0 else none

/-- C9: calling the aggregator fetcher with an empty credential returns the
empty sequence and attempts no network request, whatever the query,
location, or what the transport would have answered. -/
theorem C9_serpapi_no_key (net : NetResult) (q loc : String) :
    fetch_serpapi_jobs net q loc "" = ([], 0) := rfl

/-- C3 counterexample: a 200 response whose body is not valid JSON makes
`fetch_lever` and `fetch_greenhouse` raise (the `r.json()` call is outside
every `try`), instead of returning the empty sequence as the claim states. -/
theorem C3_counterexample :
    fetch_lever iso0 (NetResult.resp 200 none) "acme" = Except.error PyErr.jsonError ∧
    fetch_greenhouse (NetResult.resp 200 none) "acme" = Except.error PyErr.jsonError ∧
    fetch_lever iso0 (NetResult.resp 200 none) "acme" ≠ Except.ok [] :=
  ⟨rfl, rfl, fun h => Except.noConfusion h⟩

/-- C3 amended: a request exception or a status other than 200 yields the
empty sequence for every fetcher; a malformed JSON body in a 200 response
yields the empty sequence only for the aggregator fetcher (whose whole body
sits in a `try/except`), while the two board fetchers raise on it. -/
theorem C3_fetch_failures (isoMs : Int → String) (slug q loc key : String)
    (status : Nat) (body : Option PyVal) :
    (fetch_lever isoMs NetResult.exn slug = Except.ok []) ∧
    (status ≠ 200 → fetch_lever isoMs (NetResult.resp status body) slug = Except.ok []) ∧
    (fetch_greenhouse NetResult.exn slug = Except.ok []) ∧
    (status ≠ 200 → fetch_greenhouse (NetResult.resp status body) slug = Except.ok []) ∧
    (key ≠ "" → fetch_serpapi_jobs NetResult.exn q loc key = ([], 1)) ∧
    (key ≠ "" → status ≠ 200 →
      fetch_serpapi_jobs (NetResult.resp status body) q loc key = ([], 1)) ∧
    (key ≠ "" → fetch_serpapi_jobs (NetResult.resp 200 none) q loc key = ([], 1)) ∧
    (fetch_lever isoMs (NetResult.resp 200 none) slug = Except.error PyErr.jsonError) ∧
    (fetch_greenhouse (NetResult.resp 200 none) slug = Except.error PyErr.jsonError) := by
  refine ⟨rfl, ?_, rfl, ?_, ?_, ?_, ?_, rfl, rfl⟩
  · intro h
    simp [fetch_lever, safe_get, h]
  · intro h
    simp [fetch_greenhouse, safe_get, h]
  · intro h
    simp [fetch_serpapi_jobs, h]
  · intro h h'
    simp [fetch_serpapi_jobs, h, h']
  · intro h
    simp [fetch_serpapi_jobs, h]

/-- C3 witness: the amended theorem applied at a concrete failing status. -/
theorem C3_fetch_failures_witness :
    fetch_lever iso0 (NetResult.resp 404 none) "acme" = Except.ok [] :=
  (C3_fetch_failures iso0 "acme" "q" "l" "k" 404 none).2.1 (by decide)

/-- C2: the code evaluated where the claim fails. A ProviderA (Lever)
record with no `text` field normalizes to `title = None` (not the empty
string the claim requires) — ProviderB (Greenhouse) behaves the same — a
truthy non-numeric `createdAt` makes ProviderA normalization raise
`TypeError` in the division, and a present-but-empty `related_links` list
makes aggregator normalization raise `IndexError` (swallowed only by that
fetcher's blanket `except`). -/
theorem C2_normalize_divergence :
    leverNormalizeItem iso0 "acme" [] = Except.ok
      { title := PyVal.pnone, company := PyVal.pstr "acme", location := PyVal.pstr "",
        team := PyVal.pstr "", commitment := PyVal.pstr "", url := PyVal.pnone,
        description := PyVal.pstr "", posted_at := PyVal.pnone, source := "Lever",
        tags := PyVal.plist [] } ∧
    (greenhouseNormalizeItem "acme" []).map NormJob.title = Except.ok PyVal.pnone ∧
    leverNormalizeItem iso0 "acme" [("createdAt", PyVal.pstr "yesterday")]
      = Except.error PyErr.typeError ∧
    serpNormalizeItem [("related_links", PyVal.plist [])] = Except.error PyErr.indexError :=
  ⟨rfl, rfl, rfl, rfl⟩

/-- The two jobs exhibiting the sort failure for C4: one with a truthy but
unparseable `posted_at`, one with a parseable one. -/
def jobUnparseable : Job :=
  { title := "", company := "", location := "", team := "", commitment := "", url := "",
    description := "", posted_at := "not-a-date", source := "", tags := [] }

/-- A job whose `posted_at` parses under `parseIso0`. -/
def jobParseable : Job :=
  { title := "", company := "", location := "", team := "", commitment := "", url := "u2",
    description := "", posted_at := "2025-01-01T00:00:00", source := "", tags := [] }

/-- C4: sorting by recency a list containing a job whose `posted_at` is
present but unparseable raises `TypeError`: its sort key is Python `None`
(`days_ago` returns `None`), which cannot be compared with the integer key
of the parseable job. Only an absent/empty `posted_at` gets the
maximally-old key 9999. -/
theorem C4_sort_raises :
    sort_recent parseIso0 86400 [jobUnparseable, jobParseable] = Except.error () ∧
    sortRecentKey parseIso0 86400 jobUnparseable = none ∧
    sortRecentKey parseIso0 86400 jobParseable = some 1 ∧
    sortRecentKey parseIso0 86400 { jobUnparseable with posted_at := "" } = some 9999 :=
  ⟨rfl, rfl, rfl, rfl⟩

/-- The duplicated Lever posting for C1 (spec scenario 1: two postings with
identical title/company/url). -/
def jobA : Job :=
  { title := "Senior QA Engineer", company := "acme", location := "Remote", team := "",
    commitment := "", url := "https://jobs.lever.co/acme/1", description := "",
    posted_at := "", source := "Lever", tags := [] }

/-- The scan environment for C1: one Lever board whose fetch returns the
same posting twice. -/
def env1 : ScanEnv :=
  { fetchL := fun _ => [jobA, jobA], fetchG := fun _ => [], fetchS := fun _ _ _ => [],
    board_urls := ["https://jobs.lever.co/acme"], use_serpapi := false, serpapi_key := "",
    serpapi_location := "", tech_keywords := [], locations := ["San Jose, CA"],
    remote_ok := true, posted_within_days := 14, parseIso := fun _ => none, now := 0 }

/-- C1: on a run whose single board contributes two identical postings, the
concatenation of all fetched sequences has length 2 (and the per-source
diagnostics count 2 raw Lever jobs), but the returned raw total is 1: the
code rebinds `all_jobs` to the deduplicated list before taking `len`, so
`rawTotal` is the post-dedup count, not the pre-dedup one the claim
states. -/
theorem C1_rawTotal_postdedup :
    run_scan env1 ["Senior QA Engineer"] =
      ([jobA], { lever := 2, greenhouse := 0, serpapi := 0, unknown := 0 }, 1) ∧
    (env1.fetchL "acme").length = 2 :=
  ⟨rfl, rfl⟩

/-- C5: characterization of the recency filter of `run_scan`, relative to a
fixed current time `now`. A parsed `posted_at` survives iff the whole-day
difference (floored, as `timedelta.days`) is at most the window — in
particular exactly `window` days ago passes and `window + 1` days ago
fails — while an absent (empty) or unparseable `posted_at` always
survives. -/
theorem C5_recency (parseIso : String → Option Int) (now window : Int) (j : Job) :
    (j.posted_at = "" → recencyKeep parseIso now window j = true) ∧
    (parseIso (stripDateMarkers j.posted_at) = none →
      recencyKeep parseIso now window j = true) ∧
    (∀ t, parseIso (stripDateMarkers j.posted_at) = some t →
      (recencyKeep parseIso now window j = true ↔ Int.fdiv (now - t) 86400 ≤ window) ∨
        j.posted_at = "") ∧
    (parseIso (stripDateMarkers j.posted_at) = some (now - window * 86400) →
      recencyKeep parseIso now window j = true) ∧
    (j.posted_at ≠ "" →
      parseIso (stripDateMarkers j.posted_at) = some (now - (window + 1) * 86400) →
      recencyKeep parseIso now window j = false) := by
  by_cases hp : j.posted_at = ""
  · refine ⟨fun _ => ?_, fun _ => ?_, fun t _ => Or.inr hp, fun _ => ?_, fun h => absurd hp h⟩
    all_goals simp [recencyKeep, hp]
  · have harith : ∀ d : Int, Int.fdiv (now - (now - d)) 86400 = Int.fdiv d 86400 := by
      intro d; congr 1; ring
    refine ⟨fun h => absurd h hp, fun h => ?_, fun t ht => Or.inl ?_, fun h => ?_, fun _ h => ?_⟩
    · simp [recencyKeep, days_ago, hp, h]
    · simp [recencyKeep, days_ago, hp, ht]
    · have : Int.fdiv (now - (now - window * 86400)) 86400 = window := by
        rw [harith]; exact Int.mul_fdiv_cancel window (by norm_num)
      simp [recencyKeep, days_ago, hp, h, this]
    · have : Int.fdiv (now - (now - (window + 1) * 86400)) 86400 = window + 1 := by
        rw [harith]; exact Int.mul_fdiv_cancel (window + 1) (by norm_num)
      simp [recencyKeep, days_ago, hp, h, this]

/-- C5 witness: a job posted exactly 14 days (in seconds) before `now = 0`
passes the 14-day window. -/
theorem C5_recency_witness :
    recencyKeep (fun _ => some (-1209600)) 0 14 jobUnparseable = true :=
  (C5_recency (fun _ => some (-1209600)) 0 14 jobUnparseable).2.2.2.1 (by norm_num)

/-- `leadsWith` tests exactly "is an initial run of". -/
theorem leadsWith_iff (p s : List Char) : leadsWith p s = true ↔ ∃ t, s = p ++ t := by
  induction p generalizing s with
  | nil => simp [leadsWith]
  | cons a ps ih =>
    cases s with
    | nil =>
      simp [leadsWith]
    | cons c cs =>
      have hdef : leadsWith (a :: ps) (c :: cs) = (a == c && leadsWith ps cs) := rfl
      rw [hdef, Bool.and_eq_true, beq_iff_eq, ih]
      constructor
      · rintro ⟨rfl, t, rfl⟩
        exact ⟨t, rfl⟩
      · rintro ⟨t, ht⟩
        rw [List.cons_append] at ht
        injection ht with h1 h2
        exact ⟨h1.symm, t, h2⟩

/-- `containsSub` tests exactly substring occurrence. -/
theorem containsSub_iff (pat hay : List Char) :
    containsSub pat hay = true ↔ ∃ pre post, hay = pre ++ pat ++ post := by
  induction hay with
  | nil =>
    simp only [containsSub, List.isEmpty_iff]
    constructor
    · rintro rfl
      exact ⟨[], [], rfl⟩
    · rintro ⟨pre, post, hpp⟩
      rcases List.append_eq_nil.mp hpp.symm with ⟨h1, h2⟩
      exact (List.append_eq_nil.mp h1).2
  | cons c cs ih =>
    have hdef : containsSub pat (c :: cs) = (leadsWith pat (c :: cs) || containsSub pat cs) := rfl
    rw [hdef, Bool.or_eq_true, ih, leadsWith_iff]
    constructor
    · rintro (⟨t, ht⟩ | ⟨pre, post, hpp⟩)
      · exact ⟨[], t, by simpa using ht⟩
      · exact ⟨c :: pre, post, by simp [hpp]⟩
    · rintro ⟨pre, post, hpp⟩
      cases pre with
      | nil => exact Or.inl ⟨post, by simpa using hpp⟩
      | cons c' pre' =>
        right
        rw [List.cons_append, List.cons_append] at hpp
        injection hpp with h1 h2
        exact ⟨pre', post, h2⟩

/-- Python's `pat in hay` is substring occurrence on the underlying char
lists. -/
theorem strIn_iff (pat hay : String) :
    strIn pat hay = true ↔ ∃ pre post, hay.data = pre ++ pat.data ++ post :=
  containsSub_iff pat.data hay.data

/-- Stripping from both ends empties a list exactly when every element is
stripped. -/
theorem stripBoth_eq_nil_iff (p : Char → Bool) (l : List Char) :
    stripBoth p l = [] ↔ ∀ c ∈ l, p c = true := by
  unfold stripBoth
  constructor
  · intro h
    have h1 : ∀ x ∈ l.rdropWhile p, p x := by
      intro x hx
      exact List.dropWhile_eq_nil_iff.mp h x hx
    have h2 : l.rdropWhile p = [] := by
      by_contra hne
      exact (List.rdropWhile_last_not p (l := l) hne) (h1 _ (List.getLast_mem hne))
    exact fun c hc => List.rdropWhile_eq_nil_iff.mp h2 c hc
  · intro h
    rw [List.rdropWhile_eq_nil_iff.mpr h]
    rfl

/-- Collapsing whitespace runs keeps the non-whitespace characters. -/
theorem collapseWs_filter (l : List Char) :
    (collapseWs l).filter (fun c => !isPySpace c) = l.filter (fun c => !isPySpace c) := by
  have hsp : isPySpace ' ' = true := by decide
  induction l with
  | nil => rfl
  | cons c cs ih =>
    cases cs with
    | nil =>
      by_cases h : isPySpace c = true
      · simp [collapseWs, h, hsp]
      · simp [collapseWs, h]
    | cons c' cs' =>
      by_cases hc : isPySpace c = true <;> by_cases hc' : isPySpace c' = true
      · simp [collapseWs, hc, hc', ih]
      · simp [collapseWs, hc, hc', ih, hsp]
      · simp [collapseWs, hc, hc', ih]
      · simp [collapseWs, hc, hc', ih]

/-- The normalized text is empty exactly when the string is all whitespace,
i.e. exactly when Python's `s.strip()` is falsy. -/
theorem normalize_text_eq_empty_iff (s : String) :
    normalize_text s = "" ↔ stripTruthy s = false := by
  have hws : ∀ l : List Char, (∀ c ∈ l, isPySpace c = true) ↔
      l.filter (fun c => !isPySpace c) = [] := by
    intro l
    rw [List.filter_eq_nil_iff]
    simp
  have h1 : normalize_text s = "" ↔ ∀ c ∈ collapseWs s.data, isPySpace c = true := by
    rw [String.ext_iff]
    show (stripBoth isPySpace (collapseWs s.data)).map Char.toLower = [] ↔ _
    rw [List.map_eq_nil_iff]
    exact stripBoth_eq_nil_iff _ _
  have h2 : (∀ c ∈ collapseWs s.data, isPySpace c = true) ↔
      ∀ c ∈ s.data, isPySpace c = true := by
    rw [hws, hws, collapseWs_filter]
  have h3 : stripTruthy s = false ↔ ∀ c ∈ s.data, isPySpace c = true := by
    unfold stripTruthy
    rw [Bool.not_eq_false', List.isEmpty_iff]
    exact stripBoth_eq_nil_iff _ _
  rw [h1, h2, h3]

/-- C7: characterization of `location_match`. When `remoteOk` is set and
the normalized job location contains "remote" or is empty, the job passes
regardless of the configured locations; otherwise it passes exactly when
some non-blank configured location occurs, normalized, as a substring of
the normalized job location. -/
theorem C7_location (job : Job) (locations : List String) (remote_ok : Bool) :
    location_match job locations remote_ok = true ↔
      ((remote_ok = true ∧
        ((∃ pre post, (normalize_text job.location).data = pre ++ "remote".data ++ post) ∨
          normalize_text job.location = "")) ∨
        ∃ L ∈ locations, stripTruthy L = true ∧
          ∃ pre post, (normalize_text job.location).data = pre ++ (normalize_text L).data ++ post)
    := by
  by_cases hrem : (remote_ok &&
      (strIn "remote" (normalize_text job.location) ||
        normalize_text job.location == "")) = true
  · have hlhs : location_match job locations remote_ok = true := by
      simp only [location_match]
      rw [if_pos hrem]
    rw [hlhs]
    simp only [true_iff]
    rw [Bool.and_eq_true] at hrem
    obtain ⟨h1, h2⟩ := hrem
    refine Or.inl ⟨h1, ?_⟩
    rw [Bool.or_eq_true] at h2
    rcases h2 with h | h
    · exact Or.inl ((strIn_iff _ _).mp h)
    · exact Or.inr (by simpa using h)
  · have hlhs : location_match job locations remote_ok =
        locations.any fun L => stripTruthy L && strIn (normalize_text L)
          (normalize_text job.location) := by
      simp only [location_match]
      rw [if_neg hrem]
    rw [hlhs, List.any_eq_true]
    constructor
    · rintro ⟨L, hL, hLb⟩
      rw [Bool.and_eq_true] at hLb
      obtain ⟨hs, hin⟩ := hLb
      exact Or.inr ⟨L, hL, hs, (strIn_iff _ _).mp hin⟩
    · rintro (⟨h1, h2⟩ | ⟨L, hL, hs, hin⟩)
      · exfalso
        apply hrem
        rw [h1, Bool.true_and, Bool.or_eq_true]
        rcases h2 with h | h
        · exact Or.inl ((strIn_iff _ _).mpr h)
        · exact Or.inr (by simpa using h)
      · refine ⟨L, hL, ?_⟩
        rw [Bool.and_eq_true]
        exact ⟨hs, (strIn_iff _ _).mpr hin⟩

/-- C7 witness: the spec's scenario 2, both directions, via the
characterization. -/
theorem C7_location_witness :
    location_match { jobUnparseable with location := "San Jose, CA, USA" }
      ["San Jose, CA"] false = true :=
  (C7_location { jobUnparseable with location := "San Jose, CA, USA" }
      ["San Jose, CA"] false).mpr
    (Or.inr ⟨"San Jose, CA", by decide, by decide, "".data, ", usa".data, by decide⟩)

/-- C10: with `remoteOk` unset, a job whose location normalizes to the
empty string never passes `location_match`: blank configured locations are
skipped and a non-blank one normalizes to a non-empty string, which is
never a substring of the empty location. -/
theorem C10_empty_location (j : Job) (locations : List String)
    (h : normalize_text j.location = "") :
    location_match j locations false = false := by
  have hfalse : ∀ L : String, (stripTruthy L && strIn (normalize_text L) "") = false := by
    intro L
    by_cases hs : stripTruthy L = true
    · have hne : normalize_text L ≠ "" := by
        intro he
        rw [normalize_text_eq_empty_iff] at he
        rw [he] at hs
        exact Bool.false_ne_true hs
      have hdata : (normalize_text L).data ≠ [] := by
        intro hd
        exact hne (String.ext hd)
      have hin : strIn (normalize_text L) "" = false := by
        show (normalize_text L).data.isEmpty = false
        rwa [List.isEmpty_eq_false]
      simp [hin]
    · simp [Bool.not_eq_true] at hs
      simp [hs]
  have hlhs : location_match j locations false =
      locations.any fun L => stripTruthy L && strIn (normalize_text L)
        (normalize_text j.location) := by
    simp [location_match]
  rw [hlhs, h, List.any_eq_false]
  intro L _
  rw [hfalse L]
  exact Bool.false_ne_true

/-- C10 witness: an all-whitespace location with a concrete configured
locations list. -/
theorem C10_empty_location_witness :
    location_match { jobUnparseable with location := "   " } ["San Jose, CA"] false = false :=
  C10_empty_location { jobUnparseable with location := "   " } ["San Jose, CA"] (by decide)

/-- `dedupeAux` returns a sublist (order-preserving selection) of its
input. -/
theorem dedupeAux_sublist (seen : List (String × String × String)) (l : List Job) :
    (dedupeAux seen l).Sublist l := by
  induction l generalizing seen with
  | nil => simp [dedupeAux]
  | cons j rest ih =>
    simp only [dedupeAux]
    by_cases h : dedupKey j ∈ seen
    · rw [if_pos h]
      exact (ih seen).trans (List.sublist_cons_self j rest)
    · rw [if_neg h]
      exact (ih _).cons₂ j

/-- Every output of `dedupeAux` has a key outside `seen` and is the first
element of the input with its key. -/
theorem dedupeAux_find (seen : List (String × String × String)) (l : List Job)
    (y : Job) (hy : y ∈ dedupeAux seen l) :
    dedupKey y ∉ seen ∧
      l.find? (fun x => decide (dedupKey x = dedupKey y)) = some y := by
  induction l generalizing seen with
  | nil => simp [dedupeAux] at hy
  | cons j rest ih =>
    simp only [dedupeAux] at hy
    by_cases h : dedupKey j ∈ seen
    · rw [if_pos h] at hy
      obtain ⟨hns, hfind⟩ := ih seen hy
      have hne : dedupKey j ≠ dedupKey y := fun he => hns (he ▸ h)
      refine ⟨hns, ?_⟩
      rw [List.find?_cons_of_neg _ (by simpa using hne), hfind]
    · rw [if_neg h] at hy
      rcases List.mem_cons.mp hy with rfl | hy'
      · exact ⟨h, List.find?_cons_of_pos _ (by simp)⟩
      · obtain ⟨hns, hfind⟩ := ih _ hy'
        have hne : dedupKey j ≠ dedupKey y := by
          intro he
          exact hns (by rw [← he]; exact List.mem_cons_self _ _)
        have hns' : dedupKey y ∉ seen := fun hmem => hns (List.mem_cons_of_mem _ hmem)
        refine ⟨hns', ?_⟩
        rw [List.find?_cons_of_neg _ (by simpa using hne), hfind]

/-- Every input element's key is either already in `seen` or represented in
the output of `dedupeAux`. -/
theorem dedupeAux_cover (seen : List (String × String × String)) (l : List Job)
    (x : Job) (hx : x ∈ l) :
    dedupKey x ∈ seen ∨ ∃ y ∈ dedupeAux seen l, dedupKey y = dedupKey x := by
  induction l generalizing seen with
  | nil => cases hx
  | cons j rest ih =>
    rcases List.mem_cons.mp hx with rfl | hx'
    · by_cases h : dedupKey x ∈ seen
      · exact Or.inl h
      · right
        refine ⟨x, ?_, rfl⟩
        simp only [dedupeAux]
        rw [if_neg h]
        exact List.mem_cons_self _ _
    · by_cases h : dedupKey j ∈ seen
      · rcases ih seen hx' with hin | ⟨y, hy, hk⟩
        · exact Or.inl hin
        · right
          refine ⟨y, ?_, hk⟩
          simp only [dedupeAux]
          rw [if_pos h]
          exact hy
      · rcases ih (dedupKey j :: seen) hx' with hin | ⟨y, hy, hk⟩
        · rcases List.mem_cons.mp hin with he | hin'
          · right
            refine ⟨j, ?_, he.symm⟩
            simp only [dedupeAux]
            rw [if_neg h]
            exact List.mem_cons_self _ _
          · exact Or.inl hin'
        · right
          refine ⟨y, ?_, hk⟩
          simp only [dedupeAux]
          rw [if_neg h]
          exact List.mem_cons_of_mem _ hy

/-- `dedupeAux` is the identity on a list whose keys are distinct and
disjoint from `seen`. -/
theorem dedupeAux_fix (seen : List (String × String × String)) (l : List Job)
    (h1 : ∀ y ∈ l, dedupKey y ∉ seen) (h2 : (l.map dedupKey).Nodup) :
    dedupeAux seen l = l := by
  induction l generalizing seen with
  | nil => rfl
  | cons j rest ih =>
    simp only [dedupeAux]
    rw [if_neg (h1 j (List.mem_cons_self _ _))]
    simp only [List.map_cons, List.nodup_cons] at h2
    congr 1
    apply ih
    · intro y hy hmem
      rcases List.mem_cons.mp hmem with he | hseen
      · exact h2.1 (he ▸ List.mem_map_of_mem dedupKey hy)
      · exact h1 y (List.mem_cons_of_mem _ hy) hseen
    · exact h2.2

/-- The output keys of `dedupeAux` are distinct and outside `seen`. -/
theorem dedupeAux_keys (seen : List (String × String × String)) (l : List Job) :
    ((dedupeAux seen l).map dedupKey).Nodup ∧
      ∀ k ∈ (dedupeAux seen l).map dedupKey, k ∉ seen := by
  induction l generalizing seen with
  | nil => exact ⟨List.nodup_nil, by simp [dedupeAux]⟩
  | cons j rest ih =>
    simp only [dedupeAux]
    by_cases h : dedupKey j ∈ seen
    · rw [if_pos h]
      exact ih seen
    · rw [if_neg h]
      obtain ⟨hnd, hnotin⟩ := ih (dedupKey j :: seen)
      constructor
      · rw [List.map_cons, List.nodup_cons]
        exact ⟨fun hmem => hnotin _ hmem (List.mem_cons_self _ _), hnd⟩
      · rw [List.map_cons]
        intro k hk
        rcases List.mem_cons.mp hk with rfl | hk'
        · exact h
        · exact fun hs => hnotin _ hk' (List.mem_cons_of_mem _ hs)

/-- C6: `dedupe_jobs` is idempotent; its output is an order-preserving
selection of the input in which every element is the first input element
carrying its key and every input key is represented; and the key is the
triple (normalized title, normalized company, raw url), so jobs whose urls
differ at all — query string, trailing slash — have distinct keys. -/
theorem C6_dedupe (l : List Job) :
    dedupe_jobs (dedupe_jobs l) = dedupe_jobs l ∧
    (dedupe_jobs l).Sublist l ∧
    (∀ y ∈ dedupe_jobs l,
      l.find? (fun x => decide (dedupKey x = dedupKey y)) = some y) ∧
    (∀ x ∈ l, ∃ y ∈ dedupe_jobs l, dedupKey y = dedupKey x) ∧
    (∀ j1 j2 : Job, dedupKey j1 = dedupKey j2 ↔
      normalize_text j1.title = normalize_text j2.title ∧
        normalize_text j1.company = normalize_text j2.company ∧ j1.url = j2.url) ∧
    (∀ j1 j2 : Job, j1.url ≠ j2.url → dedupKey j1 ≠ dedupKey j2) := by
  refine ⟨?_, dedupeAux_sublist [] l, ?_, ?_, ?_, ?_⟩
  · obtain ⟨hnd, _⟩ := dedupeAux_keys [] l
    exact dedupeAux_fix [] _ (fun y _ hmem => (List.not_mem_nil _) hmem) hnd
  · intro y hy
    exact (dedupeAux_find [] l y hy).2
  · intro x hx
    rcases dedupeAux_cover [] l x hx with hin | h
    · exact absurd hin (List.not_mem_nil _)
    · exact h
  · intro j1 j2
    simp [dedupKey, Prod.ext_iff]
  · intro j1 j2 hne h
    exact hne (congrArg (fun k => k.2.2) h)

/-- A job identical to `jobA` up to a query string on the url. -/
def jobB : Job :=
  { jobA with url := "https://jobs.lever.co/acme/1?x=1" }

/-- C6 witness: in a list holding `jobA` and its query-string variant, both
survive and `jobA` is the first element carrying its key. -/
theorem C6_dedupe_witness :
    List.find? (fun x => decide (dedupKey x = dedupKey jobA)) [jobA, jobB] = some jobA :=
  (C6_dedupe [jobA, jobB]).2.2.1 jobA (by decide)

/-- `splitChar` never returns the empty list. -/
theorem splitChar_ne_nil (sep : Char) (l : List Char) : splitChar sep l ≠ [] := by
  cases l with
  | nil => simp [splitChar]
  | cons c cs =>
    simp only [splitChar]
    cases h : splitChar sep cs with
    | nil => simp
    | cons hd tl => by_cases hc : c = sep <;> simp [hc]

/-- The lowercased host and the first non-empty path segment of a URL, the
notions the spec phrases the board parser in terms of. -/
def urlHostLower (url : String) : String :=
  lowerStr (urlparseNetlocPath url).1

/-- The first non-empty `/`-separated segment of a URL's path, if any. -/
def urlFirstSeg (url : String) : Option (List Char) :=
  (splitChar '/' (urlparseNetlocPath url).2.data).find? fun seg => !seg.isEmpty

/-- After dropping leading separators, the head component of the split is
the first non-empty component of the original split (or empty if none). -/
theorem splitChar_dropWhile_headD (sep : Char) (l : List Char) :
    (splitChar sep (l.dropWhile fun c => c == sep)).headD [] =
      ((splitChar sep l).find? fun seg => !seg.isEmpty).getD [] := by
  induction l with
  | nil => rfl
  | cons c cs ih =>
    by_cases hc : c = sep
    · subst hc
      have hdrop : (c :: cs).dropWhile (fun x => x == c) = cs.dropWhile fun x => x == c := by
        simp [List.dropWhile_cons]
      rw [hdrop, ih]
      have hsp : splitChar c (c :: cs) = [] :: splitChar c cs := by
        simp only [splitChar]
        cases h : splitChar c cs with
        | nil => exact absurd h (splitChar_ne_nil c cs)
        | cons hd tl => simp
      rw [hsp]
      simp [List.find?]
    · have hdrop : (c :: cs).dropWhile (fun x => x == sep) = c :: cs := by
        simp [List.dropWhile_cons, hc]
      rw [hdrop]
      simp only [splitChar]
      cases h : splitChar sep cs with
      | nil => exact absurd h (splitChar_ne_nil sep cs)
      | cons hd tl => simp [hc, List.find?]

/-- Appending one separator appends one empty component. -/
theorem splitChar_append_sep (sep : Char) (xs : List Char) :
    splitChar sep (xs ++ [sep]) = splitChar sep xs ++ [[]] := by
  induction xs with
  | nil => simp [splitChar]
  | cons c cs ih =>
    have hL : (c :: cs) ++ [sep] = c :: (cs ++ [sep]) := rfl
    rw [hL]
    simp only [splitChar]
    rw [ih]
    cases h : splitChar sep cs with
    | nil => exact absurd h (splitChar_ne_nil sep cs)
    | cons hd tl =>
      by_cases hc : c = sep <;> simp [hc]

/-- A trailing empty component does not change the first non-empty one. -/
theorem find_nonempty_append_nil (L : List (List Char)) :
    ((L ++ [[]]).find? fun seg => !seg.isEmpty) = L.find? fun seg => !seg.isEmpty := by
  induction L with
  | nil => rfl
  | cons a L ihL =>
    by_cases ha : a.isEmpty = true
    · simp [List.find?, ha, ihL]
    · simp [List.find?, ha]

/-- Trailing separators do not change the first non-empty component. -/
theorem find_nonempty_append_seps (sep : Char) (xs ss : List Char)
    (hss : ∀ c ∈ ss, c = sep) :
    ((splitChar sep (xs ++ ss)).find? fun seg => !seg.isEmpty) =
      (splitChar sep xs).find? fun seg => !seg.isEmpty := by
  induction ss generalizing xs with
  | nil => simp
  | cons s ss' ih =>
    have hs : s = sep := hss s (List.mem_cons_self _ _)
    subst hs
    have hsplit : xs ++ s :: ss' = (xs ++ [s]) ++ ss' := by simp
    rw [hsplit, ih (xs ++ [s]) fun c hc => hss c (List.mem_cons_of_mem _ hc)]
    rw [splitChar_append_sep, find_nonempty_append_nil]

/-- A list is its `rdropWhile` part followed by its `rtakeWhile` part. -/
theorem rdropWhile_append_rtakeWhile_self (p : Char → Bool) (l : List Char) :
    l.rdropWhile p ++ l.rtakeWhile p = l := by
  rw [List.rdropWhile, List.rtakeWhile, ← List.reverse_append,
    List.takeWhile_append_dropWhile, List.reverse_reverse]

/-- The slug computed by `parse_board_url` — head of the split of the
slash-stripped path — is exactly the first non-empty path segment (or empty
when there is none). -/
theorem stripBoth_headD_eq_firstSeg (sep : Char) (l : List Char) :
    (splitChar sep (stripBoth (fun c => c == sep) l)).headD [] =
      ((splitChar sep l).find? fun seg => !seg.isEmpty).getD [] := by
  unfold stripBoth
  rw [splitChar_dropWhile_headD]
  congr 1
  conv_rhs => rw [← rdropWhile_append_rtakeWhile_self (fun c => c == sep) l]
  rw [find_nonempty_append_seps]
  intro c hc
  have := List.mem_rtakeWhile_imp hc
  simpa using this

/-- `parse_board_url` in terms of the spec's notions: marker containment in
the lowercased host, and the first non-empty path segment. -/
theorem parse_board_url_eq (url : String) :
    parse_board_url url =
      (if strIn "lever.co" (urlHostLower url) then
        ("Lever", (⟨(urlFirstSeg url).getD []⟩ : String))
      else if strIn "greenhouse.io" (urlHostLower url) then
        ("Greenhouse", (⟨(urlFirstSeg url).getD []⟩ : String))
      else ("Unknown", "")) := by
  simp only [parse_board_url, urlHostLower, urlFirstSeg]
  have hne : (splitChar '/'
      (stripBoth (fun c => c == '/') (urlparseNetlocPath url).2.data)).isEmpty = false := by
    rw [List.isEmpty_eq_false]
    exact splitChar_ne_nil _ _
  rw [hne, stripBoth_headD_eq_firstSeg]
  simp only [Bool.not_false, Bool.and_true]

/-- C8: a URL whose host contains the Lever marker parses to Lever with the
first non-empty path segment as slug; with the Greenhouse marker (and not
the Lever one) likewise to Greenhouse; any other host gives Unknown with an
empty slug. In `run_scan`, appending an unrecognized board URL to the
configuration bumps only the Unknown diagnostics counter: the filtered
jobs, the other counters and the returned raw total are unchanged, i.e. an
unrecognized reference is dispatched to no fetcher and contributes no
jobs. -/
theorem C8_board_parse :
    (∀ (url : String) (s : List Char),
      strIn "lever.co" (urlHostLower url) = true → urlFirstSeg url = some s →
        parse_board_url url = ("Lever", ⟨s⟩)) ∧
    (∀ (url : String) (s : List Char),
      strIn "lever.co" (urlHostLower url) = false →
      strIn "greenhouse.io" (urlHostLower url) = true → urlFirstSeg url = some s →
        parse_board_url url = ("Greenhouse", ⟨s⟩)) ∧
    (∀ url : String,
      strIn "lever.co" (urlHostLower url) = false →
      strIn "greenhouse.io" (urlHostLower url) = false →
        parse_board_url url = ("Unknown", "")) ∧
    (∀ (env : ScanEnv) (preset : List String) (u : String),
      (parse_board_url u).1 ≠ "Lever" → (parse_board_url u).1 ≠ "Greenhouse" →
        run_scan { env with board_urls := env.board_urls ++ [u] } preset =
          ((run_scan env preset).1,
            { (run_scan env preset).2.1 with
                unknown := (run_scan env preset).2.1.unknown + 1 },
            (run_scan env preset).2.2)) := by
  refine ⟨?_, ?_, ?_, ?_⟩
  · intro url s hlev hseg
    rw [parse_board_url_eq, if_pos hlev, hseg]
    rfl
  · intro url s hlev hgh hseg
    rw [parse_board_url_eq, if_neg (by simp [hlev]), if_pos hgh, hseg]
    rfl
  · intro url hlev hgh
    rw [parse_board_url_eq, if_neg (by simp [hlev]), if_neg (by simp [hgh])]
  · intro env preset u h1 h2
    have henv : boardStep { env with board_urls := env.board_urls ++ [u] } = boardStep env :=
      rfl
    simp only [run_scan, henv, List.foldl_append, List.foldl_cons, List.foldl_nil]
    simp only [boardStep, if_neg h1, if_neg h2]
    by_cases hs : env.use_serpapi = true ∧ ¬env.serpapi_key = ""
    · simp [hs]
    · simp [hs]

/-- C8 witness: the spec's scenario 4 board URL parses to Greenhouse with
slug "acme", via the main theorem. -/
theorem C8_board_parse_witness :
    parse_board_url "https://boards.greenhouse.io/acme" = ("Greenhouse", "acme") :=
  C8_board_parse.2.1 "https://boards.greenhouse.io/acme" "acme".data
    (by decide) (by decide) (by decide)
